import Mathlib

/-!
Verification of the appointment-to-client matcher and pipe-delimited list
helpers of the seshdoc repository.

The JavaScript sources are shallowly embedded: strings are Lean `String`
(a wrapped `List Char`), JavaScript `trim`/`toLowerCase`/`split('|')`/
`join('|')`/`includes` are modelled by executable Lean functions over the
character lists, and non-string JavaScript values (where the source checks
`typeof`) are modelled by the inductive `JsVal`.  The modelled whitespace
class covers the ASCII whitespace characters plus NBSP and BOM; the
lowercase map covers ASCII letters (matching JavaScript on ASCII input).
-/

/-- Whitespace class used by both JavaScript trim and the regex class
backslash-s, restricted to the ASCII range plus NBSP and BOM. -/
def jsWhitespace (c : Char) : Bool :=
  c == ' ' || c == '\t' || c == '\n' || c == '\r' || c == '\x0b' ||
  c == '\x0c' || c == ' ' || c == '﻿'

/-- Drop the longest run of characters satisfying p from the end of a list. -/
def dropEndWhile (p : α → Bool) (l : List α) : List α :=
  ((l.reverse).dropWhile p).reverse

/-- Character-list form of JavaScript String.prototype.trim. -/
def trimChars (l : List Char) : List Char :=
  dropEndWhile jsWhitespace (l.dropWhile jsWhitespace)

/-- JavaScript String.prototype.trim. -/
def jsTrim (s : String) : String := ⟨trimChars s.data⟩

/-- ASCII lowercase map of a single character, as JavaScript
String.prototype.toLowerCase acts on ASCII letters. -/
def jsLowerChar (c : Char) : Char :=
  match c with
  | 'A' => 'a' | 'B' => 'b' | 'C' => 'c' | 'D' => 'd' | 'E' => 'e'
  | 'F' => 'f' | 'G' => 'g' | 'H' => 'h' | 'I' => 'i' | 'J' => 'j'
  | 'K' => 'k' | 'L' => 'l' | 'M' => 'm' | 'N' => 'n' | 'O' => 'o'
  | 'P' => 'p' | 'Q' => 'q' | 'R' => 'r' | 'S' => 's' | 'T' => 't'
  | 'U' => 'u' | 'V' => 'v' | 'W' => 'w' | 'X' => 'x' | 'Y' => 'y'
  | 'Z' => 'z' | c => c

/-- JavaScript String.prototype.toLowerCase (ASCII model). -/
def jsToLower (s : String) : String := ⟨s.data.map jsLowerChar⟩

/-- Does the second list begin with the first one? -/
def leadsWith [DecidableEq α] : List α → List α → Bool
  | [], _ => true
  | _ :: _, [] => false
  | a :: as, b :: bs => a = b && leadsWith as bs

/-- Does sub occur contiguously inside l? -/
def hasSub [DecidableEq α] : List α → List α → Bool
  | sub, [] => leadsWith sub []
  | sub, b :: rest => leadsWith sub (b :: rest) || hasSub sub rest

/-- JavaScript String.prototype.includes: jsIncludes s sub is true when sub
occurs contiguously inside s. -/
def jsIncludes (s sub : String) : Bool := hasSub sub.data s.data

/-- JavaScript String.prototype.split with separator the pipe character. -/
def splitPipe : List Char → List (List Char)
  | [] => [[]]
  | c :: rest =>
    if c = '|' then [] :: splitPipe rest
    else
      match splitPipe rest with
      | [] => [[c]]
      | h :: t => (c :: h) :: t

/-- JavaScript Array.prototype.join with separator the pipe character. -/
def joinPipeChars : List (List Char) → List Char
  | [] => []
  | [x] => x
  | x :: y :: rest => x ++ '|' :: joinPipeChars (y :: rest)

/-- JavaScript values, used where the source checks typeof or truthiness of
an argument that callers may pass with the wrong type. -/
inductive JsVal where
  | str : String → JsVal
  | num : Int → JsVal
  | boolV : Bool → JsVal
  | nullV : JsVal
  | undefinedV : JsVal
deriving DecidableEq

/-! ### PipeDelimitedHelpers (src/PipeDelimitedHelpers.js)

Each function mirrors the body of the corresponding method.  The defensive
try/catch wrappers in the source are dead for the modelled domain (the
bodies call only total string/array builtins), so the embedded functions
return the body's value directly.  JavaScript falsiness of a string argument
is the test for the empty string; non-string arguments are modelled at the
JsVal layer (parseJs). -/

namespace PipeDelimitedHelpers

/-- PipeDelimitedHelpers.parse: split on the pipe separator, and when trim
is set, trim every piece and drop the empty pieces. -/
def parse (data : String) (trim : Bool := true) : List String :=
  if data = "" then []
  else
    let items := (splitPipe data.data).map (fun piece => (⟨piece⟩ : String))
    if trim then (items.map jsTrim).filter (fun item => item.length > 0)
    else items

/-- PipeDelimitedHelpers.parse including the guard for absent or non-string
data, which returns the empty array. -/
def parseJs (data : JsVal) : List String :=
  match data with
  | JsVal.str s => parse s
  | _ => []

/-- PipeDelimitedHelpers.stringify: trim every item, drop the empty ones and
join with the pipe separator (String(item) is the identity on strings). -/
def stringify (items : List String) (trim : Bool := true) : String :=
  let processedItems :=
    if trim then (items.map jsTrim).filter (fun item => item.length > 0)
    else items
  ⟨joinPipeChars (processedItems.map String.data)⟩

/-- PipeDelimitedHelpers.addItem. -/
def addItem (data : String) (newItem : String)
    (allowDuplicates : Bool := false) : String :=
  if newItem = "" then data
  else
    let items := parse data
    let trimmedNewItem := jsTrim newItem
    if allowDuplicates = false ∧ trimmedNewItem ∈ items then data
    else stringify (items ++ [trimmedNewItem])

/-- PipeDelimitedHelpers.removeItem. -/
def removeItem (data : String) (itemToRemove : String) : String :=
  if data = "" ∨ itemToRemove = "" then data
  else
    let trimmedItem := jsTrim itemToRemove
    stringify ((parse data).filter (fun item => item != trimmedItem))

/-- PipeDelimitedHelpers.updateItem. -/
def updateItem (data : String) (oldItem : String) (newItem : String) : String :=
  if data = "" ∨ oldItem = "" ∨ newItem = "" then data
  else
    let trimmedOldItem := jsTrim oldItem
    let trimmedNewItem := jsTrim newItem
    stringify ((parse data).map (fun item =>
      if item = trimmedOldItem then trimmedNewItem else item))

/-- PipeDelimitedHelpers.reorderItems.  newOrder is an arbitrary JavaScript
array, so its elements are JsVal; Array.prototype.includes on mixed values
never equates a non-string with a string. -/
def reorderItems (data : String) (newOrder : List JsVal) : String :=
  if data = "" then data
  else
    let currentItems := parse data
    let validNewOrder := newOrder.filterMap (fun item =>
      match item with
      | JsVal.str s => if s ∈ currentItems then some s else none
      | _ => none)
    let missingItems := currentItems.filter
      (fun item => decide (JsVal.str item ∉ newOrder))
    stringify (validNewOrder ++ missingItems)

end PipeDelimitedHelpers

/-! ### Matcher (src/CalendarService.js)

matchAppointmentToClient fetches the client list itself via getAllClients;
the embedding takes that list as the explicit allClients parameter (the
guards for an unavailable getAllClients or a fetch error both return null
and are outside the pure core).  A missing id/name field of a client record
and a missing extracted field of an appointment are modelled by the empty
string, which is exactly what the source's truthiness guards test.  The
local consts of the source (extractedName, clientName) are inlined. -/

structure Appointment where
  extractedClientId : String
  extractedClientName : String
deriving DecidableEq

structure Client where
  id : String
  name : String
deriving DecidableEq

/-- matchAppointmentToClient, src/CalendarService.js lines 591 to 645. -/
def matchAppointmentToClient (appointment : Appointment)
    (allClients : List Client) : Option Client :=
  if allClients = [] then none
  else
    match (if appointment.extractedClientId ≠ "" then
        allClients.find? (fun client =>
          client.id != "" &&
          (jsToLower client.id == jsToLower appointment.extractedClientId))
      else none) with
    | some byId => some byId
    | none =>
      if appointment.extractedClientName ≠ "" then
        match allClients.find? (fun client =>
            client.name != "" &&
            (jsToLower client.name ==
              jsTrim (jsToLower appointment.extractedClientName))) with
        | some exactMatch => some exactMatch
        | none =>
          allClients.find? (fun client =>
            if client.name = "" then false
            else
              jsIncludes (jsToLower client.name)
                (jsTrim (jsToLower appointment.extractedClientName)) ||
              jsIncludes (jsTrim (jsToLower appointment.extractedClientName))
                (jsToLower client.name))
      else none

/-- calculateMatchConfidence, src/CalendarService.js lines 653 to 684. -/
def calculateMatchConfidence (appointment : Appointment)
    (client : Option Client) : String :=
  match client with
  | none => "none"
  | some client =>
    if appointment.extractedClientId != "" && client.id != "" &&
        (jsToLower client.id == jsToLower appointment.extractedClientId) then
      "high"
    else if appointment.extractedClientName != "" && client.name != "" &&
        (jsToLower client.name ==
          jsToLower appointment.extractedClientName) then
      "high"
    else if appointment.extractedClientName != "" && client.name != "" &&
        (jsIncludes (jsToLower client.name)
           (jsToLower appointment.extractedClientName) ||
         jsIncludes (jsToLower appointment.extractedClientName)
           (jsToLower client.name)) then
      "medium"
    else "low"

/-! ### C4: confidence characterisation and the no-overlap case -/

/-- Identifier match condition of calculateMatchConfidence, stated as a
proposition: both identifiers present and equal after lowercasing. -/
def idMatchP (app : Appointment) (c : Client) : Prop :=
  app.extractedClientId ≠ "" ∧ c.id ≠ "" ∧
  jsToLower c.id = jsToLower app.extractedClientId

/-- Exact name match condition of calculateMatchConfidence. -/
def nameMatchP (app : Appointment) (c : Client) : Prop :=
  app.extractedClientName ≠ "" ∧ c.name ≠ "" ∧
  jsToLower c.name = jsToLower app.extractedClientName

/-- Substring-either-direction name condition of calculateMatchConfidence. -/
def nameSubP (app : Appointment) (c : Client) : Prop :=
  app.extractedClientName ≠ "" ∧ c.name ≠ "" ∧
  (jsIncludes (jsToLower c.name) (jsToLower app.extractedClientName) = true ∨
   jsIncludes (jsToLower app.extractedClientName) (jsToLower c.name) = true)

/-- No identifier or name overlap between the appointment and any candidate,
covering every comparison the matcher performs (the matcher compares names
against the trimmed lowercased extracted name). -/
def noOverlapP (app : Appointment) (clients : List Client) : Prop :=
  ∀ c ∈ clients, ¬ idMatchP app c ∧
    jsToLower c.name ≠ jsTrim (jsToLower app.extractedClientName) ∧
    jsIncludes (jsToLower c.name)
      (jsTrim (jsToLower app.extractedClientName)) = false ∧
    jsIncludes (jsTrim (jsToLower app.extractedClientName))
      (jsToLower c.name) = false

/-! ### validate (src/PipeDelimitedHelpers.js lines 277 to 320) -/

/-- Result record of PipeDelimitedHelpers.validate.  The early branch for
absent data returns an object without a uniqueItemCount property, modelled
as none. -/
structure ValidateResult where
  valid : Bool
  itemCount : Nat
  uniqueItemCount : Option Nat
  issues : List String
deriving DecidableEq

/-- Worker for jsSetDedup, carrying the set of items already emitted. -/
def jsSetDedupGo : List String → List String → List String
  | [], _ => []
  | x :: xs, seen =>
    if x ∈ seen then jsSetDedupGo xs seen
    else x :: jsSetDedupGo xs (x :: seen)

/-- First-occurrence deduplication: the JavaScript Set constructor keeps
insertion order, so spreading a Set keeps the first occurrence of each
item. -/
def jsSetDedup (l : List String) : List String := jsSetDedupGo l []

namespace PipeDelimitedHelpers

/-- PipeDelimitedHelpers.validate. -/
def validate (data : String) : ValidateResult :=
  if data = "" then ⟨true, 0, none, []⟩
  else
    let items := parse data
    let emptyItems := items.filter (fun item => jsTrim item == "")
    let issues1 :=
      if emptyItems.length > 0 then
        ["Found " ++ toString emptyItems.length ++ " empty items"]
      else []
    let uniqueItems := jsSetDedup items
    let issues2 :=
      if uniqueItems.length ≠ items.length then
        issues1 ++ ["Found " ++ toString (items.length - uniqueItems.length)
          ++ " duplicate items"]
      else issues1
    let problematicItems := items.filter (fun item =>
      jsIncludes item "\n" || jsIncludes item "\r" || jsIncludes item "\t")
    let issues :=
      if problematicItems.length > 0 then
        issues2 ++ ["Found " ++ toString problematicItems.length
          ++ " items with line breaks or tabs"]
      else issues2
    ⟨issues.length == 0, items.length, some uniqueItems.length, issues⟩

/-- PipeDelimitedHelpers.validate with the empty-item check removed: since
parse is called with its default trim, the parsed items never contain an
empty entry, so the check in the source can never fire. -/
def validateNoEmpty (data : String) : ValidateResult :=
  if data = "" then ⟨true, 0, none, []⟩
  else
    let items := parse data
    let uniqueItems := jsSetDedup items
    let issues2 :=
      if uniqueItems.length ≠ items.length then
        ["Found " ++ toString (items.length - uniqueItems.length)
          ++ " duplicate items"]
      else []
    let problematicItems := items.filter (fun item =>
      jsIncludes item "\n" || jsIncludes item "\r" || jsIncludes item "\t")
    let issues :=
      if problematicItems.length > 0 then
        issues2 ++ ["Found " ++ toString problematicItems.length
          ++ " items with line breaks or tabs"]
      else issues2
    ⟨issues.length == 0, items.length, some uniqueItems.length, issues⟩

end PipeDelimitedHelpers

/-! ### GoalManagementService.addGoal (src/ConfigurationService.js 391-417) -/

/-- GoalManagementService.addGoal.  The spreadsheet state read through
getGoals and written through setGoals is passed and returned explicitly as
the list of current goals; a JavaScript throw, re-thrown by the catch
wrapper with the prefixed message, is modelled with Except.error. -/
def addGoal (currentGoals : List String) (goalText : String) :
    Except String (List String) :=
  if goalText = "" ∨ jsTrim goalText = "" then
    Except.error "Failed to add goal: Goal text cannot be empty"
  else
    let trimmedGoal := jsTrim goalText
    if currentGoals.any (fun goal => jsToLower goal == jsToLower trimmedGoal)
    then Except.error "Failed to add goal: This goal already exists for the client"
    else Except.ok (currentGoals ++ [trimmedGoal])

/-! ### extractClientFromTitle (src/CalendarService.js lines 480 to 512)

The three JavaScript regex replaces are embedded by per-position matchers
and a left-to-right scan over the original characters, replacing each
non-overlapping leftmost match with the empty string and resuming after it,
which is the semantics of String.prototype.replace with a global flag.  All
three patterns are deterministic: every quantified sub-pattern is followed
by either nothing or a character its own class excludes, so the greedy
match is the only possible one and its length is computed directly. -/

/-- The regex class of uppercase letters and digits. -/
def isUpperDigit (c : Char) : Bool :=
  decide (('A' ≤ c ∧ c ≤ 'Z') ∨ ('0' ≤ c ∧ c ≤ '9'))

/-- Leftmost match of the identifier pattern: an opening parenthesis, a
non-empty run of uppercase letters and digits, a closing parenthesis. -/
def findParenId : List Char → Option (List Char)
  | [] => none
  | c :: rest =>
    if c = '(' then
      let run := rest.takeWhile isUpperDigit
      if !run.isEmpty &&
          ((rest.dropWhile isUpperDigit).head? == some ')') then some run
      else findParenId rest
    else findParenId rest

/-- The fixed alternation of session keywords, already lowercased as the
regexes match case-insensitively. -/
def sessionKeywords : List (List Char) :=
  ["therapy".data, "session".data, "counseling".data, "appointment".data,
   "meeting".data, "consultation".data, "treatment".data]

/-- Case-insensitive test that l begins with the lowercase keyword kw. -/
def startsWithCI : List Char → List Char → Bool
  | [], _ => true
  | _ :: _, [] => false
  | k :: ks, c :: cs => jsLowerChar c == k && startsWithCI ks cs

/-- Length of the keyword of the alternation matching at the head of l, in
alternation order (no keyword is a prefix of another, so at most one
matches). -/
def matchKwAt (l : List Char) : Option Nat :=
  match sessionKeywords.find? (fun kw => startsWithCI kw l) with
  | some kw => some kw.length
  | none => none

/-- Match length at the head of l for the first replace's pattern:
whitespace run, hyphen, whitespace run, keyword, whitespace run. -/
def matchPat1At (l : List Char) : Option Nat :=
  let w1 := l.takeWhile jsWhitespace
  match l.dropWhile jsWhitespace with
  | '-' :: r2 =>
    let w2 := r2.takeWhile jsWhitespace
    let r3 := r2.dropWhile jsWhitespace
    match matchKwAt r3 with
    | some klen =>
      some (w1.length + 1 + w2.length + klen +
        ((r3.drop klen).takeWhile jsWhitespace).length)
    | none => none
  | _ => none

/-- Match length at the head of l for the second replace's pattern:
whitespace run, keyword, whitespace run, optional hyphen, whitespace run. -/
def matchPat2At (l : List Char) : Option Nat :=
  let w1 := l.takeWhile jsWhitespace
  let r1 := l.dropWhile jsWhitespace
  match matchKwAt r1 with
  | some klen =>
    let r2 := r1.drop klen
    let w2 := r2.takeWhile jsWhitespace
    match r2.dropWhile jsWhitespace with
    | '-' :: r4 =>
      some (w1.length + klen + w2.length + 1 +
        (r4.takeWhile jsWhitespace).length)
    | _ => some (w1.length + klen + w2.length)
  | none => none

/-- Match length at the head of l for the third replace's pattern: an
opening parenthesis, any run without a closing parenthesis, a closing
parenthesis. -/
def matchPat3At (l : List Char) : Option Nat :=
  match l with
  | '(' :: rest =>
    match rest.dropWhile (fun c => c != ')') with
    | ')' :: _ => some (1 + (rest.takeWhile (fun c => c != ')')).length + 1)
    | _ => none
  | _ => none

/-- Left-to-right global replace-with-empty scan.  The fuel argument equals
the length of the scanned list at the top call; every matcher consumes at
least one character, so the fuel never runs out. -/
def replaceScan (m : List Char → Option Nat) : Nat → List Char → List Char
  | _, [] => []
  | 0, l => l
  | fuel + 1, c :: rest =>
    match m (c :: rest) with
    | some n => replaceScan m fuel ((c :: rest).drop n)
    | none => c :: replaceScan m fuel rest

/-- String.prototype.replace with a global regex and empty replacement. -/
def replaceAllWith (m : List Char → Option Nat) (l : List Char) : List Char :=
  replaceScan m l.length l

/-- Result of extractClientFromTitle. -/
structure ExtractedClient where
  name : String
  id : String
deriving DecidableEq

/-- extractClientFromTitle. -/
def extractClientFromTitle (title : String) : ExtractedClient :=
  let id : String := match findParenId title.data with
    | some run => ⟨run⟩
    | none => ""
  let step1 := replaceAllWith matchPat1At title.data
  let step2 := replaceAllWith matchPat2At step1
  let step3 := replaceAllWith matchPat3At step2
  let cleanTitle : String := ⟨trimChars step3⟩
  let name := if cleanTitle = "" then title else cleanTitle
  ⟨name, id⟩

open PipeDelimitedHelpers

/-! ### Basic lemmas about the string model -/

theorem dropWhile_dropWhile (p : α → Bool) (l : List α) :
    (l.dropWhile p).dropWhile p = l.dropWhile p := by
  induction l with
  | nil => rfl
  | cons a l ih =>
    by_cases h : p a
    · simp [List.dropWhile_cons, h, ih]
    · simp [List.dropWhile_cons, h]

theorem dropEndWhile_cons [DecidableEq α] (p : α → Bool) (a : α) (l : List α) :
    dropEndWhile p (a :: l) =
      (if dropEndWhile p l = [] then (if p a then [] else [a])
       else a :: dropEndWhile p l) := by
  unfold dropEndWhile
  rw [List.reverse_cons, List.dropWhile_append]
  by_cases h : (l.reverse.dropWhile p).isEmpty
  · have h' : l.reverse.dropWhile p = [] := by
      simpa [List.isEmpty_iff] using h
    simp only [h, if_true, h', List.reverse_nil, List.reverse_eq_nil_iff]
    by_cases hp : p a <;> simp [List.dropWhile, hp]
  · have h' : ¬ (l.reverse.dropWhile p).reverse = [] := by
      simp only [List.reverse_eq_nil_iff]
      simpa [List.isEmpty_iff] using h
    simp [h, h', List.reverse_append]

theorem dropEndWhile_dropEndWhile (p : α → Bool) (l : List α) :
    dropEndWhile p (dropEndWhile p l) = dropEndWhile p l := by
  unfold dropEndWhile
  rw [List.reverse_reverse, dropWhile_dropWhile]

theorem dropWhile_dropEndWhile [DecidableEq α] (p : α → Bool) (l : List α) :
    (dropEndWhile p l).dropWhile p = dropEndWhile p (l.dropWhile p) := by
  induction l with
  | nil => rfl
  | cons a l ih =>
    by_cases hp : p a
    · by_cases hnil : dropEndWhile p l = []
      · simp only [dropEndWhile_cons, if_pos hnil, if_pos hp,
          List.dropWhile_cons_of_pos hp, List.dropWhile_nil]
        rw [← ih, hnil, List.dropWhile_nil]
      · simp only [dropEndWhile_cons, if_neg hnil,
          List.dropWhile_cons_of_pos hp, ih]
    · by_cases hnil : dropEndWhile p l = []
      · simp only [dropEndWhile_cons, if_pos hnil, if_neg hp,
          List.dropWhile_cons_of_neg hp]
      · simp only [dropEndWhile_cons, if_neg hnil,
          List.dropWhile_cons_of_neg hp]

theorem trimChars_idem (l : List Char) :
    trimChars (trimChars l) = trimChars l := by
  unfold trimChars
  rw [dropWhile_dropEndWhile, dropWhile_dropWhile, dropEndWhile_dropEndWhile]

theorem jsTrim_idem (s : String) : jsTrim (jsTrim s) = jsTrim s := by
  unfold jsTrim
  exact congrArg String.mk (trimChars_idem s.data)

theorem dropEndWhile_sublist (p : α → Bool) (l : List α) :
    (dropEndWhile p l).Sublist l := by
  have h : (l.reverse.dropWhile p).Sublist l.reverse := List.dropWhile_sublist _
  have h2 := h.reverse
  rwa [List.reverse_reverse] at h2

theorem trimChars_sublist (l : List Char) : (trimChars l).Sublist l :=
  (dropEndWhile_sublist _ _).trans (List.dropWhile_sublist _)

theorem mem_of_mem_trimChars {c : Char} {l : List Char}
    (h : c ∈ trimChars l) : c ∈ l := (trimChars_sublist l).mem h

/-! ### splitPipe / joinPipeChars -/

theorem splitPipe_ne_nil (l : List Char) : splitPipe l ≠ [] := by
  induction l with
  | nil => simp [splitPipe]
  | cons c rest ih =>
    by_cases h : c = '|'
    · simp [splitPipe, h]
    · simp only [splitPipe, if_neg h]
      cases hs : splitPipe rest with
      | nil => simp
      | cons hd tl => simp

theorem splitPipe_pipe (rest : List Char) :
    splitPipe ('|' :: rest) = [] :: splitPipe rest := by
  simp [splitPipe]

theorem splitPipe_cons_ne (c : Char) (rest : List Char) (h : c ≠ '|')
    (hd : List Char) (tl : List (List Char)) (hs : splitPipe rest = hd :: tl) :
    splitPipe (c :: rest) = (c :: hd) :: tl := by
  simp [splitPipe, if_neg h, hs]

theorem not_pipe_mem_splitPipe (l : List Char) :
    ∀ piece ∈ splitPipe l, '|' ∉ piece := by
  induction l with
  | nil =>
    intro piece hp
    simp only [splitPipe, List.mem_singleton] at hp
    simp [hp]
  | cons c rest ih =>
    by_cases h : c = '|'
    · subst h
      rw [splitPipe_pipe]
      intro piece hp
      rcases List.mem_cons.mp hp with h1 | h1
      · simp [h1]
      · exact ih piece h1
    · cases hs : splitPipe rest with
      | nil => exact absurd hs (splitPipe_ne_nil rest)
      | cons hd tl =>
        rw [splitPipe_cons_ne c rest h hd tl hs]
        intro piece hp
        rcases List.mem_cons.mp hp with h1 | h1
        · subst h1
          intro hmem
          rcases List.mem_cons.mp hmem with h2 | h2
          · exact h h2.symm
          · exact ih hd (hs ▸ List.mem_cons_self hd tl) h2
        · exact ih piece (hs ▸ List.mem_cons_of_mem hd h1)

theorem joinPipeChars_cons_cons (c : Char) (h : List Char)
    (t : List (List Char)) :
    joinPipeChars ((c :: h) :: t) = c :: joinPipeChars (h :: t) := by
  cases t <;> simp [joinPipeChars]

theorem joinPipeChars_splitPipe (l : List Char) :
    joinPipeChars (splitPipe l) = l := by
  induction l with
  | nil => rfl
  | cons c rest ih =>
    by_cases h : c = '|'
    · subst h
      cases hs : splitPipe rest with
      | nil => exact absurd hs (splitPipe_ne_nil rest)
      | cons hd tl =>
        have ih' : joinPipeChars (hd :: tl) = rest := by rw [← hs]; exact ih
        rw [splitPipe_pipe, hs, joinPipeChars, ih']
        rfl
    · cases hs : splitPipe rest with
      | nil => exact absurd hs (splitPipe_ne_nil rest)
      | cons hd tl =>
        have ih' : joinPipeChars (hd :: tl) = rest := by rw [← hs]; exact ih
        rw [splitPipe_cons_ne c rest h hd tl hs, joinPipeChars_cons_cons, ih']

theorem splitPipe_no_pipe (l : List Char) (h : '|' ∉ l) : splitPipe l = [l] := by
  induction l with
  | nil => rfl
  | cons c rest ih =>
    have hc : c ≠ '|' := fun e => h (by rw [e]; exact List.mem_cons_self _ _)
    have hr : '|' ∉ rest := fun m => h (List.mem_cons_of_mem _ m)
    rw [splitPipe_cons_ne c rest hc rest [] (ih hr)]

theorem splitPipe_append_pipe (x r : List Char) (h : '|' ∉ x) :
    splitPipe (x ++ '|' :: r) = x :: splitPipe r := by
  induction x with
  | nil => simpa using splitPipe_pipe r
  | cons c xs ih =>
    have hc : c ≠ '|' := fun e => h (by rw [e]; exact List.mem_cons_self _ _)
    have hr : '|' ∉ xs := fun m => h (List.mem_cons_of_mem _ m)
    rw [List.cons_append,
      splitPipe_cons_ne c (xs ++ '|' :: r) hc xs (splitPipe r) (ih hr)]

theorem splitPipe_joinPipeChars (pieces : List (List Char)) (hne : pieces ≠ [])
    (h : ∀ piece ∈ pieces, '|' ∉ piece) :
    splitPipe (joinPipeChars pieces) = pieces := by
  induction pieces with
  | nil => exact absurd rfl hne
  | cons x t ih =>
    cases t with
    | nil =>
      show splitPipe (joinPipeChars [x]) = [x]
      exact splitPipe_no_pipe x (h x (List.mem_cons_self _ _))
    | cons y ts =>
      rw [joinPipeChars, splitPipe_append_pipe x _ (h x (List.mem_cons_self _ _)),
        ih (by simp) (fun piece hp => h piece (List.mem_cons_of_mem x hp))]

theorem string_eq_empty_iff {s : String} : s = "" ↔ s.data = [] := by
  constructor
  · intro h; rw [h]
  · intro h
    cases s with
    | mk d => cases h; rfl

theorem string_length_data (s : String) : s.length = s.data.length := by
  cases s; rfl

theorem parse_def (data : String) (hd : data ≠ "") :
    parse data =
      (((splitPipe data.data).map (fun piece => (⟨piece⟩ : String))).map
        jsTrim).filter (fun item => item.length > 0) := by
  unfold parse
  rw [if_neg hd]
  rfl

theorem stringify_def (l : List String) :
    stringify l =
      ⟨joinPipeChars (((l.map jsTrim).filter
        (fun item => item.length > 0)).map String.data)⟩ := rfl

theorem parse_mem (data : String) :
    ∀ s ∈ parse data, jsTrim s = s ∧ s ≠ "" ∧ '|' ∉ s.data := by
  intro s hs
  by_cases hd : data = ""
  · rw [hd] at hs
    simp [parse] at hs
  · rw [parse_def data hd, List.mem_filter] at hs
    obtain ⟨hmem, hlen⟩ := hs
    rw [List.mem_map] at hmem
    obtain ⟨t, htmem, hts⟩ := hmem
    rw [List.mem_map] at htmem
    obtain ⟨piece, hpmem, hpt⟩ := htmem
    have hfix : jsTrim s = s := by rw [← hts, jsTrim_idem]
    have hne : s ≠ "" := by
      intro he
      rw [he] at hlen
      simp at hlen
    refine ⟨hfix, hne, ?_⟩
    intro hpipe
    have hsdata : s.data = trimChars piece := by
      rw [← hts, ← hpt]
      rfl
    rw [hsdata] at hpipe
    exact not_pipe_mem_splitPipe data.data piece hpmem
      (mem_of_mem_trimChars hpipe)

theorem parse_stringify (l : List String)
    (h : ∀ s ∈ l, jsTrim s = s ∧ s ≠ "" ∧ '|' ∉ s.data) :
    parse (stringify l) = l := by
  have hproc : (l.map jsTrim).filter (fun item => item.length > 0) = l := by
    have hmap : l.map jsTrim = l :=
      (List.map_congr_left (fun s hs => (h s hs).1)).trans (List.map_id l)
    rw [hmap, List.filter_eq_self]
    intro s hs
    have hne := (h s hs).2.1
    simp only [decide_eq_true_eq]
    rw [string_length_data]
    rcases Nat.eq_zero_or_pos s.data.length with h0 | hpos
    · exact absurd (string_eq_empty_iff.mpr (List.length_eq_zero.mp h0)) hne
    · exact hpos
  cases l with
  | nil =>
    show parse (stringify []) = []
    rfl
  | cons s0 l' =>
    rw [stringify_def, hproc]
    have hJne : joinPipeChars ((s0 :: l').map String.data) ≠ [] := by
      cases l' with
      | nil =>
        show joinPipeChars [s0.data] ≠ []
        have hne := (h s0 (List.mem_cons_self _ _)).2.1
        exact fun he => hne (string_eq_empty_iff.mpr he)
      | cons y ys =>
        show s0.data ++ '|' :: joinPipeChars ((y :: ys).map String.data) ≠ []
        simp
    have hmkne : (⟨joinPipeChars ((s0 :: l').map String.data)⟩ : String) ≠ "" :=
      fun he => hJne (string_eq_empty_iff.mp he)
    rw [parse_def _ hmkne]
    have hsplit : splitPipe (joinPipeChars ((s0 :: l').map String.data)) =
        (s0 :: l').map String.data := by
      apply splitPipe_joinPipeChars
      · simp
      · intro piece hp
        rw [List.mem_map] at hp
        obtain ⟨s, hsmem, hsp⟩ := hp
        rw [← hsp]
        exact (h s hsmem).2.2
    rw [hsplit]
    have hmkdata : ((s0 :: l').map String.data).map
        (fun piece => (⟨piece⟩ : String)) = s0 :: l' := by
      rw [List.map_map]
      exact List.map_id _
    rw [hmkdata, hproc]

/-! ### Helper unfolding lemmas for the mutators -/

theorem addItem_of_mem (data newItem : String)
    (h : jsTrim newItem ∈ parse data) : addItem data newItem false = data := by
  unfold addItem
  by_cases h0 : newItem = ""
  · rw [if_pos h0]
  · rw [if_neg h0]
    show (if false = false ∧ jsTrim newItem ∈ parse data then data
          else stringify (parse data ++ [jsTrim newItem])) = data
    rw [if_pos ⟨rfl, h⟩]

theorem addItem_append (data newItem : String) (dup : Bool)
    (hne : newItem ≠ "") (hcond : ¬(dup = false ∧ jsTrim newItem ∈ parse data)) :
    addItem data newItem dup = stringify (parse data ++ [jsTrim newItem]) := by
  unfold addItem
  rw [if_neg hne]
  show (if dup = false ∧ jsTrim newItem ∈ parse data then data
        else stringify (parse data ++ [jsTrim newItem])) =
    stringify (parse data ++ [jsTrim newItem])
  rw [if_neg hcond]

theorem removeItem_of_empty (data x : String) (h : data = "" ∨ x = "") :
    removeItem data x = data := by
  unfold removeItem
  rw [if_pos h]

theorem removeItem_def (data x : String) (hd : data ≠ "") (hx : x ≠ "") :
    removeItem data x =
      stringify ((parse data).filter (fun item => item != jsTrim x)) := by
  unfold removeItem
  rw [if_neg (not_or.mpr ⟨hd, hx⟩)]

theorem filter_filter_self (l : List String) (p : String → Bool) :
    (l.filter p).filter p = l.filter p := by
  rw [List.filter_filter]
  congr 1
  funext a
  rw [Bool.and_self]

theorem removeItem_parse (text x : String) :
    parse (removeItem text x) =
      (parse text).filter (fun item => item != jsTrim x) := by
  by_cases hd : text = ""
  · rw [removeItem_of_empty text x (Or.inl hd), hd]
    show parse "" = (parse "").filter _
    rfl
  · by_cases hx : x = ""
    · rw [removeItem_of_empty text x (Or.inr hx), hx]
      show parse text = (parse text).filter (fun item => item != jsTrim "")
      rw [eq_comm, List.filter_eq_self]
      intro s hs
      have hne := (parse_mem text s hs).2.1
      show (s != "") = true
      exact bne_iff_ne.mpr hne
    · rw [removeItem_def text x hd hx]
      apply parse_stringify
      intro s hs
      exact parse_mem text s (List.mem_of_mem_filter hs)

theorem updateItem_def (data o n : String) (hd : data ≠ "") (ho : o ≠ "")
    (hn : n ≠ "") :
    updateItem data o n =
      stringify ((parse data).map (fun item =>
        if item = jsTrim o then jsTrim n else item)) := by
  unfold updateItem
  rw [if_neg (by simp [hd, ho, hn])]

/-- C3: addItem with allowDuplicates false returns the text unchanged when
the trimmed item already occurs among the parsed entries; otherwise, for an
item whose trimmed form is non-empty and has no pipe separator, the result
parses back to the original entries with the trimmed item appended; the two
concrete scenarios from the spec hold. -/
theorem addItem_spec :
    (∀ text item, jsTrim item ∈ parse text → addItem text item false = text) ∧
    (∀ text item, jsTrim item ∉ parse text → jsTrim item ≠ "" →
      '|' ∉ (jsTrim item).data →
      parse (addItem text item false) = parse text ++ [jsTrim item]) ∧
    addItem "A|B" "A" false = "A|B" ∧ addItem "A|B" "A" true = "A|B|A" := by
  refine ⟨fun text item h => addItem_of_mem text item h, ?_, by decide, by decide⟩
  intro text item hnm htne hpipe
  have hne : item ≠ "" := by
    intro he
    rw [he] at htne
    exact htne rfl
  rw [addItem_append text item false hne (fun hc => hnm hc.2)]
  apply parse_stringify
  intro s hs
  rcases List.mem_append.mp hs with h1 | h1
  · exact parse_mem text s h1
  · rw [List.mem_singleton] at h1
    subst h1
    exact ⟨jsTrim_idem item, htne, hpipe⟩

/-- C3 counterexample: for the whitespace-only item, the claimed append
equation fails (the trimmed item is empty and is silently dropped on
re-serialisation, returning a canonicalised text instead). -/
theorem addItem_cex : jsTrim " " ∉ parse "A" ∧
    parse (addItem "A" " " false) ≠ parse "A" ++ [jsTrim " "] := by decide

/-- C3 witness. -/
theorem addItem_spec_example :
    parse (addItem "A|B" "C" false) = parse "A|B" ++ [jsTrim "C"] :=
  addItem_spec.2.1 "A|B" "C" (by decide) (by decide) (by decide)

/-- C7: removeItem is idempotent on the text; it drops exactly the parsed
entries equal to the trimmed item; and removing a non-present item returns
the text unchanged provided the text is canonical (re-serialising its parse
reproduces it). -/
theorem removeItem_spec :
    (∀ text x, removeItem (removeItem text x) x = removeItem text x) ∧
    (∀ text x, parse (removeItem text x) =
      (parse text).filter (fun item => item != jsTrim x)) ∧
    (∀ text x, jsTrim x ∉ parse text → stringify (parse text) = text →
      removeItem text x = text) := by
  refine ⟨?_, removeItem_parse, ?_⟩
  · intro text x
    by_cases hx : x = ""
    · rw [removeItem_of_empty _ x (Or.inr hx)]
    · by_cases hd : text = ""
      · rw [removeItem_of_empty text x (Or.inl hd),
          removeItem_of_empty text x (Or.inl hd)]
      · rw [removeItem_def text x hd hx]
        by_cases hr :
            stringify ((parse text).filter (fun item => item != jsTrim x)) = ""
        · rw [hr, removeItem_of_empty "" x (Or.inl rfl)]
        · rw [removeItem_def _ x hr hx]
          have hpr : parse (stringify ((parse text).filter
              (fun item => item != jsTrim x))) =
              (parse text).filter (fun item => item != jsTrim x) := by
            apply parse_stringify
            intro s hs
            exact parse_mem text s (List.mem_of_mem_filter hs)
          rw [hpr, filter_filter_self]
  · intro text x hnm hcanon
    by_cases hd : text = ""
    · exact removeItem_of_empty text x (Or.inl hd)
    · by_cases hx : x = ""
      · exact removeItem_of_empty text x (Or.inr hx)
      · rw [removeItem_def text x hd hx]
        have hfe : (parse text).filter (fun item => item != jsTrim x) =
            parse text := by
          rw [List.filter_eq_self]
          intro s hs
          exact bne_iff_ne.mpr (fun he => hnm (he ▸ hs))
        rw [hfe, hcanon]

/-- C7 counterexample: on a non-canonical text, removing a non-present item
is not a no-op on the text itself (the text is canonicalised). -/
theorem removeItem_noop_cex : jsTrim "B" ∉ parse " A" ∧
    removeItem " A" "B" ≠ " A" := by decide

/-- C7 witness. -/
theorem removeItem_spec_example : removeItem "A|B" "C" = "A|B" :=
  removeItem_spec.2.2 "A|B" "C" (by decide) (by decide)

/-- C10: for a non-empty oldItem and a newItem whose trimmed form is
non-empty and pipe-free, updateItem rewrites every parsed entry equal to the
trimmed oldItem to the trimmed newItem in place; doing so can create
duplicate entries, so entry uniqueness is not preserved. -/
theorem updateItem_spec :
    (∀ text o n, o ≠ "" → jsTrim n ≠ "" → '|' ∉ (jsTrim n).data →
      parse (updateItem text o n) =
        (parse text).map (fun item =>
          if item = jsTrim o then jsTrim n else item)) ∧
    parse (updateItem "A|B" "B" "A") = ["A", "A"] ∧
    ¬ (parse (updateItem "A|B" "B" "A")).Nodup := by
  refine ⟨?_, by decide, by decide⟩
  intro text o n ho htne hpipe
  have hn : n ≠ "" := by
    intro he
    rw [he] at htne
    exact htne rfl
  by_cases hd : text = ""
  · rw [hd]
    show parse (updateItem "" o n) = (parse "").map _
    unfold updateItem
    rw [if_pos (Or.inl rfl)]
    rfl
  · rw [updateItem_def text o n hd ho hn]
    apply parse_stringify
    intro s hs
    rw [List.mem_map] at hs
    obtain ⟨t, htmem, hts⟩ := hs
    by_cases he : t = jsTrim o
    · rw [if_pos he] at hts
      subst hts
      exact ⟨jsTrim_idem n, htne, hpipe⟩
    · rw [if_neg he] at hts
      subst hts
      exact parse_mem text t htmem

/-- C10 counterexample: when the trimmed newItem is empty, the entry is not
replaced in place but dropped entirely on re-serialisation, so the in-place
map characterisation fails without the non-empty side condition. -/
theorem updateItem_inplace_cex : updateItem "A|B" "A" " " = "B" ∧
    parse (updateItem "A|B" "A" " ") ≠
      (parse "A|B").map (fun item =>
        if item = jsTrim "A" then jsTrim " " else item) := by decide

/-- C10 witness. -/
theorem updateItem_spec_example : parse (updateItem "A|C" "A" "X") = ["X", "C"] :=
  (updateItem_spec.1 "A|C" "A" "X" (by decide) (by decide) (by decide)).trans
    (by decide)

/-! ### reorderItems -/

theorem reorderItems_of_empty (newOrder : List JsVal) :
    reorderItems "" newOrder = "" := by
  unfold reorderItems
  rw [if_pos rfl]

theorem reorderItems_def (data : String) (newOrder : List JsVal)
    (hd : data ≠ "") :
    reorderItems data newOrder = stringify
      (newOrder.filterMap (fun item => match item with
        | JsVal.str s => if s ∈ parse data then some s else none
        | _ => none)
       ++ (parse data).filter (fun item => decide (JsVal.str item ∉ newOrder))) := by
  unfold reorderItems
  rw [if_neg hd]

theorem reorder_select_eq_some {cur : List String} {a : JsVal} {s : String}
    (ha : (match a with
      | JsVal.str s' => if s' ∈ cur then some s' else none
      | _ => none) = some s) : a = JsVal.str s ∧ s ∈ cur := by
  cases a with
  | str s' =>
    dsimp only at ha
    by_cases hm : s' ∈ cur
    · rw [if_pos hm] at ha
      cases ha
      exact ⟨rfl, hm⟩
    · rw [if_neg hm] at ha
      exact Option.noConfusion ha
  | num n => exact Option.noConfusion ha
  | boolV b => exact Option.noConfusion ha
  | nullV => exact Option.noConfusion ha
  | undefinedV => exact Option.noConfusion ha

theorem reorder_core_perm (cur : List String) (newOrder : List JsVal)
    (h1 : cur.Nodup) (h2 : newOrder.Nodup) :
    (newOrder.filterMap (fun item => match item with
        | JsVal.str s => if s ∈ cur then some s else none
        | _ => none)
     ++ cur.filter (fun item => decide (JsVal.str item ∉ newOrder))).Perm
      cur := by
  have hvmem : ∀ s ∈ newOrder.filterMap (fun item => match item with
      | JsVal.str s' => if s' ∈ cur then some s' else none
      | _ => none), JsVal.str s ∈ newOrder ∧ s ∈ cur := by
    intro s hs
    rw [List.mem_filterMap] at hs
    obtain ⟨a, hamem, hfa⟩ := hs
    obtain ⟨haeq, hscur⟩ := reorder_select_eq_some hfa
    exact ⟨haeq ▸ hamem, hscur⟩
  have hmmem : ∀ s ∈ cur.filter (fun item => decide (JsVal.str item ∉ newOrder)),
      s ∈ cur ∧ JsVal.str s ∉ newOrder := by
    intro s hs
    rw [List.mem_filter] at hs
    exact ⟨hs.1, of_decide_eq_true hs.2⟩
  apply List.perm_of_nodup_nodup_toFinset_eq
  · rw [List.nodup_append]
    refine ⟨?_, h1.filter _, ?_⟩
    · apply List.Nodup.filterMap _ h2
      intro a a' b hb hb'
      rw [Option.mem_def] at hb hb'
      rw [(reorder_select_eq_some hb).1, (reorder_select_eq_some hb').1]
    · intro s hsv hsm
      exact (hmmem s hsm).2 (hvmem s hsv).1
  · exact h1
  · apply Finset.ext
    intro a
    rw [List.mem_toFinset, List.mem_toFinset, List.mem_append]
    constructor
    · intro h
      rcases h with h | h
      · exact (hvmem a h).2
      · exact (hmmem a h).1
    · intro ha
      by_cases hno : JsVal.str a ∈ newOrder
      · left
        rw [List.mem_filterMap]
        exact ⟨JsVal.str a, hno, by dsimp only; rw [if_pos ha]⟩
      · right
        rw [List.mem_filter]
        exact ⟨ha, decide_eq_true hno⟩

/-- C2 (amended): when the parsed entries of the text are distinct and the
newOrder array has no duplicate elements, parsing the reordered text yields
a permutation of the parsed entries of the original text. -/
theorem reorderItems_perm_of_nodup (text : String) (newOrder : List JsVal)
    (h1 : (parse text).Nodup) (h2 : newOrder.Nodup) :
    (parse (reorderItems text newOrder)).Perm (parse text) := by
  by_cases hd : text = ""
  · rw [hd, reorderItems_of_empty]
  · rw [reorderItems_def text newOrder hd]
    have hprops : ∀ s ∈ (newOrder.filterMap (fun item => match item with
        | JsVal.str s' => if s' ∈ parse text then some s' else none
        | _ => none)
        ++ (parse text).filter (fun item => decide (JsVal.str item ∉ newOrder))),
        jsTrim s = s ∧ s ≠ "" ∧ '|' ∉ s.data := by
      intro s hs
      rcases List.mem_append.mp hs with h | h
      · rw [List.mem_filterMap] at h
        obtain ⟨a, _, hfa⟩ := h
        exact parse_mem text s (reorder_select_eq_some hfa).2
      · exact parse_mem text s (List.mem_of_mem_filter h)
    rw [parse_stringify _ hprops]
    exact reorder_core_perm (parse text) newOrder h1 h2

/-- C2 counterexample: a newOrder containing a duplicate of a present item
makes reorderItems duplicate that item, so the result is not a permutation
of the original entries. -/
theorem reorderItems_not_perm_dup :
    reorderItems "A|B" [JsVal.str "A", JsVal.str "A"] = "A|A|B" ∧
    ¬ (parse (reorderItems "A|B" [JsVal.str "A", JsVal.str "A"])).Perm
        (parse "A|B") := by decide

/-- C2 witness. -/
theorem reorderItems_perm_example :
    (parse (reorderItems "A|B" [JsVal.str "B"])).Perm (parse "A|B") :=
  reorderItems_perm_of_nodup "A|B" [JsVal.str "B"] (by decide) (by decide)

theorem jsToLower_eq_empty {s : String} : jsToLower s = "" ↔ s = "" := by
  constructor
  · intro h
    have hd := string_eq_empty_iff.mp h
    rw [string_eq_empty_iff]
    exact List.map_eq_nil_iff.mp hd
  · intro h
    rw [h]
    rfl

theorem calc_some_eq (app : Appointment) (c : Client) :
    calculateMatchConfidence app (some c) =
      (if app.extractedClientId != "" && c.id != "" &&
          (jsToLower c.id == jsToLower app.extractedClientId) then "high"
       else if app.extractedClientName != "" && c.name != "" &&
          (jsToLower c.name == jsToLower app.extractedClientName) then "high"
       else if app.extractedClientName != "" && c.name != "" &&
          (jsIncludes (jsToLower c.name) (jsToLower app.extractedClientName) ||
           jsIncludes (jsToLower app.extractedClientName) (jsToLower c.name))
         then "medium"
       else "low") := rfl

/-- C1: an appointment with a non-empty extracted identifier that matches
some candidate's identifier case-insensitively is resolved to the first such
candidate in list order, and its recomputed confidence is high, regardless
of every name field. -/
theorem match_by_id_high (app : Appointment) (clients : List Client)
    (c0 : Client) (hid : app.extractedClientId ≠ "") (hmem : c0 ∈ clients)
    (heq : jsToLower c0.id = jsToLower app.extractedClientId) :
    ∃ c, clients.find? (fun client =>
        jsToLower client.id == jsToLower app.extractedClientId) = some c ∧
      matchAppointmentToClient app clients = some c ∧
      calculateMatchConfidence app (some c) = "high" := by
  have hlow : jsToLower app.extractedClientId ≠ "" :=
    fun he => hid (jsToLower_eq_empty.mp he)
  have hpred_eq : ∀ client : Client,
      (client.id != "" &&
        (jsToLower client.id == jsToLower app.extractedClientId))
      = (jsToLower client.id == jsToLower app.extractedClientId) := by
    intro client
    by_cases h : jsToLower client.id = jsToLower app.extractedClientId
    · have hidne : client.id ≠ "" := by
        intro he
        rw [he] at h
        exact hlow h.symm
      simp [bne_iff_ne, hidne, h]
    · simp [h]
  have hsome : (clients.find? (fun client =>
      client.id != "" &&
      (jsToLower client.id == jsToLower app.extractedClientId))).isSome :=
    List.find?_isSome.mpr ⟨c0, hmem, by rw [hpred_eq c0]; exact beq_iff_eq.mpr heq⟩
  obtain ⟨c, hc⟩ := Option.isSome_iff_exists.mp hsome
  have hpc := List.find?_some hc
  rw [Bool.and_eq_true, bne_iff_ne, beq_iff_eq] at hpc
  refine ⟨c, ?_, ?_, ?_⟩
  · rw [show (fun client : Client =>
        jsToLower client.id == jsToLower app.extractedClientId) =
        (fun client : Client => client.id != "" &&
          (jsToLower client.id == jsToLower app.extractedClientId))
      from funext (fun client => (hpred_eq client).symm)]
    exact hc
  · unfold matchAppointmentToClient
    rw [if_neg (by intro h; rw [h] at hmem; exact List.not_mem_nil c0 hmem),
      if_pos hid, hc]
  · rw [calc_some_eq,
      if_pos (by simp [bne_iff_ne, hid, hpc.1, hpc.2])]

/-- C1 witness (concrete scenario 5 of the spec). -/
theorem match_by_id_high_scenario :
    matchAppointmentToClient ⟨"C001", "John Doe"⟩
        [⟨"C002", "Jane"⟩, ⟨"C001", "John Doe"⟩] =
      some ⟨"C001", "John Doe"⟩ ∧
    calculateMatchConfidence ⟨"C001", "John Doe"⟩
        (some ⟨"C001", "John Doe"⟩) = "high" := by
  obtain ⟨c, hfind, hmatch, hconf⟩ :=
    match_by_id_high ⟨"C001", "John Doe"⟩
      [⟨"C002", "Jane"⟩, ⟨"C001", "John Doe"⟩] ⟨"C001", "John Doe"⟩
      (by decide) (by decide) (by decide)
  have hc : c = ⟨"C001", "John Doe"⟩ := by
    have : ([⟨"C002", "Jane"⟩, ⟨"C001", "John Doe"⟩] : List Client).find?
        (fun client => jsToLower client.id == jsToLower
          (Appointment.mk "C001" "John Doe").extractedClientId) =
        some ⟨"C001", "John Doe"⟩ := by decide
    rw [this] at hfind
    exact (Option.some.injEq _ _ ▸ hfind).symm
  rw [hc] at hmatch hconf
  exact ⟨hmatch, hconf⟩

theorem cond1_iff (app : Appointment) (c : Client) :
    (app.extractedClientId != "" && c.id != "" &&
      (jsToLower c.id == jsToLower app.extractedClientId)) = true ↔
    idMatchP app c := by
  simp [idMatchP, Bool.and_eq_true, bne_iff_ne, and_assoc]

theorem cond2_iff (app : Appointment) (c : Client) :
    (app.extractedClientName != "" && c.name != "" &&
      (jsToLower c.name == jsToLower app.extractedClientName)) = true ↔
    nameMatchP app c := by
  simp [nameMatchP, Bool.and_eq_true, bne_iff_ne, and_assoc]

theorem cond3_iff (app : Appointment) (c : Client) :
    (app.extractedClientName != "" && c.name != "" &&
      (jsIncludes (jsToLower c.name) (jsToLower app.extractedClientName) ||
       jsIncludes (jsToLower app.extractedClientName) (jsToLower c.name)))
      = true ↔ nameSubP app c := by
  simp [nameSubP, Bool.and_eq_true, Bool.or_eq_true, bne_iff_ne, and_assoc]

theorem matchAppointmentToClient_eq_none (app : Appointment)
    (clients : List Client)
    (hidn : ∀ c ∈ clients, ¬((c.id != "" &&
      (jsToLower c.id == jsToLower app.extractedClientId)) = true))
    (hexn : ∀ c ∈ clients, ¬((c.name != "" &&
      (jsToLower c.name ==
        jsTrim (jsToLower app.extractedClientName))) = true))
    (hsubn : ∀ c ∈ clients, ¬((if c.name = "" then false
      else
        jsIncludes (jsToLower c.name)
          (jsTrim (jsToLower app.extractedClientName)) ||
        jsIncludes (jsTrim (jsToLower app.extractedClientName))
          (jsToLower c.name)) = true)) :
    matchAppointmentToClient app clients = none := by
  unfold matchAppointmentToClient
  by_cases hcl : clients = []
  · rw [if_pos hcl]
  · rw [if_neg hcl]
    have hid_none : (if app.extractedClientId ≠ "" then
        clients.find? (fun client => client.id != "" &&
          (jsToLower client.id == jsToLower app.extractedClientId))
      else none) = none := by
      by_cases hid : app.extractedClientId ≠ ""
      · rw [if_pos hid]
        exact List.find?_eq_none.mpr hidn
      · rw [if_neg hid]
    rw [hid_none]
    by_cases hname : app.extractedClientName ≠ ""
    · rw [if_pos hname, List.find?_eq_none.mpr hexn]
      exact List.find?_eq_none.mpr hsubn
    · rw [if_neg hname]

/-- C4: the confidence recomputed for an externally supplied pair is none
exactly for an absent client, high exactly for an identifier or exact name
match, medium exactly for a substring-either-direction name relation not
already high, and low for every other present pairing; and when no
identifier or name comparison of the matcher relates the appointment to any
candidate, the match is empty and its confidence is none. -/
theorem calculateMatchConfidence_spec :
    (∀ app, calculateMatchConfidence app none = "none") ∧
    (∀ app c, calculateMatchConfidence app (some c) = "high" ↔
      idMatchP app c ∨ nameMatchP app c) ∧
    (∀ app c, calculateMatchConfidence app (some c) = "medium" ↔
      ¬(idMatchP app c ∨ nameMatchP app c) ∧ nameSubP app c) ∧
    (∀ app c, calculateMatchConfidence app (some c) = "low" ↔
      ¬(idMatchP app c ∨ nameMatchP app c) ∧ ¬ nameSubP app c) ∧
    (∀ app clients, noOverlapP app clients →
      matchAppointmentToClient app clients = none ∧
      calculateMatchConfidence app (matchAppointmentToClient app clients)
        = "none") := by
  have hchar : ∀ (app : Appointment) (c : Client),
      (calculateMatchConfidence app (some c) = "high" ↔
        idMatchP app c ∨ nameMatchP app c) ∧
      (calculateMatchConfidence app (some c) = "medium" ↔
        ¬(idMatchP app c ∨ nameMatchP app c) ∧ nameSubP app c) ∧
      (calculateMatchConfidence app (some c) = "low" ↔
        ¬(idMatchP app c ∨ nameMatchP app c) ∧ ¬ nameSubP app c) := by
    intro app c
    rw [calc_some_eq]
    by_cases h1 : idMatchP app c
    · rw [if_pos ((cond1_iff app c).mpr h1)]
      exact ⟨⟨fun _ => Or.inl h1, fun _ => rfl⟩,
        ⟨fun he => absurd he (by decide), fun hc => absurd (Or.inl h1) hc.1⟩,
        ⟨fun he => absurd he (by decide), fun hc => absurd (Or.inl h1) hc.1⟩⟩
    · rw [if_neg (fun hb => h1 ((cond1_iff app c).mp hb))]
      by_cases h2 : nameMatchP app c
      · rw [if_pos ((cond2_iff app c).mpr h2)]
        exact ⟨⟨fun _ => Or.inr h2, fun _ => rfl⟩,
          ⟨fun he => absurd he (by decide),
            fun hc => absurd (Or.inr h2) hc.1⟩,
          ⟨fun he => absurd he (by decide),
            fun hc => absurd (Or.inr h2) hc.1⟩⟩
      · rw [if_neg (fun hb => h2 ((cond2_iff app c).mp hb))]
        have h12 : ¬(idMatchP app c ∨ nameMatchP app c) := by
          intro h
          rcases h with h | h
          · exact h1 h
          · exact h2 h
        by_cases h3 : nameSubP app c
        · rw [if_pos ((cond3_iff app c).mpr h3)]
          exact ⟨⟨fun he => absurd he (by decide),
              fun hc => absurd hc (by rw [not_or] at *; tauto)⟩,
            ⟨fun _ => ⟨h12, h3⟩, fun _ => rfl⟩,
            ⟨fun he => absurd he (by decide), fun hc => absurd h3 hc.2⟩⟩
        · rw [if_neg (fun hb => h3 ((cond3_iff app c).mp hb))]
          exact ⟨⟨fun he => absurd he (by decide),
              fun hc => absurd hc (by rw [not_or] at *; tauto)⟩,
            ⟨fun he => absurd he (by decide), fun hc => absurd hc.2 h3⟩,
            ⟨fun _ => ⟨h12, h3⟩, fun _ => rfl⟩⟩
  refine ⟨fun app => rfl, fun app c => (hchar app c).1,
    fun app c => (hchar app c).2.1, fun app c => (hchar app c).2.2, ?_⟩
  intro app clients hno
  have hmn : matchAppointmentToClient app clients = none := by
    apply matchAppointmentToClient_eq_none
    · intro c hc hb
      rw [Bool.and_eq_true, bne_iff_ne, beq_iff_eq] at hb
      by_cases hid : app.extractedClientId = ""
      · rw [hid, show jsToLower ("" : String) = "" from rfl] at hb
        exact hb.1 (jsToLower_eq_empty.mp hb.2)
      · exact (hno c hc).1 ⟨hid, hb.1, hb.2⟩
    · intro c hc hb
      rw [Bool.and_eq_true, bne_iff_ne, beq_iff_eq] at hb
      exact (hno c hc).2.1 hb.2
    · intro c hc hb
      by_cases hn : c.name = ""
      · rw [if_pos hn] at hb
        exact Bool.false_ne_true hb
      · rw [if_neg hn, Bool.or_eq_true] at hb
        rcases hb with hb | hb
        · rw [(hno c hc).2.2.1] at hb
          exact Bool.false_ne_true hb
        · rw [(hno c hc).2.2.2] at hb
          exact Bool.false_ne_true hb
  exact ⟨hmn, by rw [hmn]; rfl⟩

/-- C4 witness. -/
theorem calculateMatchConfidence_spec_example :
    matchAppointmentToClient ⟨"C9", "Zed"⟩ [⟨"C1", "Alice"⟩] = none ∧
    calculateMatchConfidence ⟨"C9", "Zed"⟩
      (matchAppointmentToClient ⟨"C9", "Zed"⟩ [⟨"C1", "Alice"⟩]) = "none" :=
  calculateMatchConfidence_spec.2.2.2.2 ⟨"C9", "Zed"⟩ [⟨"C1", "Alice"⟩]
    (by unfold noOverlapP idMatchP; decide)

/-! ### C6: unique exact (case-insensitive) name match -/

theorem jsWhitespace_jsLowerChar (c : Char) :
    jsWhitespace (jsLowerChar c) = jsWhitespace c := by
  unfold jsLowerChar
  split <;> rfl

theorem dropWhile_map_lower (m : List Char) :
    (m.map jsLowerChar).dropWhile jsWhitespace =
      (m.dropWhile jsWhitespace).map jsLowerChar := by
  rw [List.dropWhile_map,
    show jsWhitespace ∘ jsLowerChar = jsWhitespace
      from funext jsWhitespace_jsLowerChar]

theorem trimChars_map_lower (l : List Char) :
    trimChars (l.map jsLowerChar) = (trimChars l).map jsLowerChar := by
  have hrm : ∀ (m : List Char),
      (m.map jsLowerChar).reverse = m.reverse.map jsLowerChar :=
    fun m => (List.map_reverse jsLowerChar m).symm
  unfold trimChars dropEndWhile
  rw [dropWhile_map_lower, hrm, dropWhile_map_lower, hrm]

theorem jsTrim_jsToLower (s : String) :
    jsTrim (jsToLower s) = jsToLower (jsTrim s) :=
  congrArg String.mk (trimChars_map_lower s.data)

theorem match_of_exact_name (app : Appointment) (clients : List Client)
    (c : Client) (hcl : clients ≠ []) (hid : app.extractedClientId = "")
    (hname : app.extractedClientName ≠ "")
    (hfind : clients.find? (fun client => client.name != "" &&
        (jsToLower client.name ==
          jsTrim (jsToLower app.extractedClientName))) = some c) :
    matchAppointmentToClient app clients = some c := by
  unfold matchAppointmentToClient
  rw [if_neg hcl]
  have hnone : (if app.extractedClientId ≠ "" then
      clients.find? (fun client => client.id != "" &&
        (jsToLower client.id == jsToLower app.extractedClientId))
    else none) = none := by
    rw [if_neg (by rw [hid]; exact fun h => h rfl)]
  rw [hnone]
  show (if app.extractedClientName ≠ "" then _ else none) = some c
  rw [if_pos hname, hfind]

/-- C6 (amended): for an appointment with empty extracted identifier whose
extracted name is trim-stable (no leading or trailing whitespace) and equals,
case-insensitively, the name of exactly one candidate, the matcher returns
that candidate and its recomputed confidence is high. -/
theorem match_unique_name_high (app : Appointment) (clients : List Client)
    (c0 : Client) (hid : app.extractedClientId = "")
    (hname : app.extractedClientName ≠ "")
    (htrim : jsTrim app.extractedClientName = app.extractedClientName)
    (hmem : c0 ∈ clients)
    (heq : jsToLower c0.name = jsToLower app.extractedClientName)
    (huniq : ∀ c ∈ clients,
      jsToLower c.name = jsToLower app.extractedClientName → c = c0) :
    matchAppointmentToClient app clients = some c0 ∧
    calculateMatchConfidence app (some c0) = "high" := by
  have hextl : jsTrim (jsToLower app.extractedClientName) =
      jsToLower app.extractedClientName := by
    rw [jsTrim_jsToLower, htrim]
  have hlowne : jsToLower app.extractedClientName ≠ "" :=
    fun he => hname (jsToLower_eq_empty.mp he)
  have hc0name : c0.name ≠ "" := by
    intro he
    rw [he, show jsToLower ("" : String) = "" from rfl] at heq
    exact hlowne heq.symm
  have hfind : clients.find? (fun client => client.name != "" &&
      (jsToLower client.name ==
        jsTrim (jsToLower app.extractedClientName))) = some c0 := by
    have hpredc0 : (c0.name != "" &&
        (jsToLower c0.name ==
          jsTrim (jsToLower app.extractedClientName))) = true := by
      rw [hextl]
      simp [bne_iff_ne, hc0name, heq]
    have hsome : (clients.find? (fun client => client.name != "" &&
        (jsToLower client.name ==
          jsTrim (jsToLower app.extractedClientName)))).isSome :=
      List.find?_isSome.mpr ⟨c0, hmem, hpredc0⟩
    obtain ⟨c, hc⟩ := Option.isSome_iff_exists.mp hsome
    have hpc := List.find?_some hc
    rw [hextl, Bool.and_eq_true, bne_iff_ne, beq_iff_eq] at hpc
    have hcc0 := huniq c (List.mem_of_find?_eq_some hc) hpc.2
    rw [hc, hcc0]
  refine ⟨match_of_exact_name app clients c0
    (by intro h; rw [h] at hmem; exact List.not_mem_nil c0 hmem)
    hid hname hfind, ?_⟩
  rw [calc_some_eq, if_neg (by simp [hid]),
    if_pos (by simp [bne_iff_ne, hname, hc0name, heq])]

/-- C6 counterexample: the matcher trims the lowercased extracted name
before the exact comparison, so an extracted name with trailing whitespace
equal to exactly one candidate's name is resolved to a different, earlier
candidate by the substring fallback, with confidence medium. -/
theorem match_unique_name_cex :
    (∀ c ∈ ([⟨"", "John Smith"⟩, ⟨"", "John "⟩] : List Client),
      jsToLower c.name = jsToLower "John " → c = (⟨"", "John "⟩ : Client)) ∧
    matchAppointmentToClient ⟨"", "John "⟩
        [⟨"", "John Smith"⟩, ⟨"", "John "⟩] = some ⟨"", "John Smith"⟩ ∧
    calculateMatchConfidence ⟨"", "John "⟩
        (some ⟨"", "John Smith"⟩) = "medium" := by decide

/-- C6 witness. -/
theorem match_unique_name_example :
    matchAppointmentToClient ⟨"", "Jane"⟩ [⟨"C1", "Jane"⟩] =
      some ⟨"C1", "Jane"⟩ ∧
    calculateMatchConfidence ⟨"", "Jane"⟩ (some ⟨"C1", "Jane"⟩) = "high" :=
  match_unique_name_high ⟨"", "Jane"⟩ [⟨"C1", "Jane"⟩] ⟨"C1", "Jane"⟩
    rfl (by decide) (by decide) (by decide) (by decide) (by decide)

/-- C9: the empty-item check of validate is dead code, because parse is
called with trimming on and so never yields an empty entry: validate equals
the variant with the check removed; the valid flag is true exactly when the
issues list is empty; and the text with an empty segment between two
separators is reported valid with no issues, contradicting the claimed
empty-item report. -/
theorem validate_empty_check_dead :
    (∀ data, validate data = validateNoEmpty data) ∧
    (∀ data, (validate data).valid = true ↔ (validate data).issues = []) ∧
    validate "A||B" = ⟨true, 2, some 2, []⟩ := by
  refine ⟨?_, ?_, by rfl⟩
  · intro data
    by_cases hd : data = ""
    · rw [hd]
      rfl
    · have he : (parse data).filter (fun item => jsTrim item == "") = [] := by
        rw [List.filter_eq_nil_iff]
        intro a ha
        simp only [beq_iff_eq]
        rw [(parse_mem data a ha).1]
        exact (parse_mem data a ha).2.1
      simp only [validate, validateNoEmpty, if_neg hd, he, List.length_nil,
        Nat.lt_irrefl, if_false]
      simp
  · intro data
    by_cases hd : data = ""
    · rw [hd]
      decide
    · simp only [validate, if_neg hd]
      simp only [beq_iff_eq, List.length_eq_zero]

/-- C5 (amended): the PipeDelimitedHelpers operations are total and degrade
on absent or malformed input to a neutral result (empty list for a
non-string argument to parse, the unchanged original text for an empty item
argument to the mutators); GoalManagementService.addGoal however does raise:
it throws for blank goal text and for a duplicate goal, and returns the
appended goal list otherwise. -/
theorem no_throw_degradation :
    (∀ v : JsVal, (∀ s, v ≠ JsVal.str s) → parseJs v = []) ∧
    (∀ data dup, addItem data "" dup = data) ∧
    (∀ data, removeItem data "" = data) ∧
    (∀ data o, updateItem data o "" = data) ∧
    (∀ goals g, jsTrim g = "" →
      addGoal goals g =
        Except.error "Failed to add goal: Goal text cannot be empty") ∧
    (∀ goals g, jsTrim g ≠ "" →
      (∃ goal ∈ goals, jsToLower goal = jsToLower (jsTrim g)) →
      addGoal goals g =
        Except.error "Failed to add goal: This goal already exists for the client") ∧
    (∀ goals g, jsTrim g ≠ "" →
      (∀ goal ∈ goals, jsToLower goal ≠ jsToLower (jsTrim g)) →
      addGoal goals g = Except.ok (goals ++ [jsTrim g])) := by
  refine ⟨?_, ?_, ?_, ?_, ?_, ?_, ?_⟩
  · intro v hv
    cases v with
    | str s => exact absurd rfl (hv s)
    | num n => rfl
    | boolV b => rfl
    | nullV => rfl
    | undefinedV => rfl
  · intro data dup
    unfold addItem
    rw [if_pos rfl]
  · intro data
    exact removeItem_of_empty data "" (Or.inr rfl)
  · intro data o
    unfold updateItem
    rw [if_pos (Or.inr (Or.inr rfl))]
  · intro goals g hg
    unfold addGoal
    rw [if_pos (Or.inr hg)]
  · intro goals g hg hdup
    unfold addGoal
    rw [if_neg (by
      intro h
      rcases h with h | h
      · rw [h] at hg
        exact hg rfl
      · exact hg h)]
    show (if goals.any (fun goal =>
        jsToLower goal == jsToLower (jsTrim g)) then _ else _) = _
    rw [if_pos (by
      rw [List.any_eq_true]
      obtain ⟨goal, hmem, heq⟩ := hdup
      exact ⟨goal, hmem, beq_iff_eq.mpr heq⟩)]
  · intro goals g hg hnodup
    unfold addGoal
    rw [if_neg (by
      intro h
      rcases h with h | h
      · rw [h] at hg
        exact hg rfl
      · exact hg h)]
    show (if goals.any (fun goal =>
        jsToLower goal == jsToLower (jsTrim g)) then _ else _) = _
    rw [if_neg (by
      rw [List.any_eq_true]
      intro ⟨goal, hmem, heq⟩
      exact hnodup goal hmem (beq_iff_eq.mp heq))]

/-- C5 counterexample: addGoal signals failure by raising, both for empty
goal text and for a duplicate goal. -/
theorem addGoal_throws_cex :
    addGoal [] "" =
      Except.error "Failed to add goal: Goal text cannot be empty" ∧
    addGoal ["Sleep well"] "sleep well" =
      Except.error "Failed to add goal: This goal already exists for the client" :=
  ⟨rfl, rfl⟩

/-- C5 witness. -/
theorem no_throw_degradation_example :
    parseJs JsVal.nullV = [] ∧
    addGoal [] " " =
      Except.error "Failed to add goal: Goal text cannot be empty" :=
  ⟨no_throw_degradation.1 JsVal.nullV (fun s h => JsVal.noConfusion h),
   no_throw_degradation.2.2.2.2.1 [] " " (by decide)⟩

theorem findParenId_none (l : List Char) (h : '(' ∉ l) :
    findParenId l = none := by
  induction l with
  | nil => rfl
  | cons c rest ih =>
    have hc : c ≠ '(' := fun e => h (by rw [e]; exact List.mem_cons_self _ _)
    have hr := ih (fun m => h (List.mem_cons_of_mem _ m))
    unfold findParenId
    rw [if_neg hc]
    exact hr

/-- C8: the title parser extracts the identifier as the first parenthesized
token of uppercase letters and digits (in particular none when the title has
no opening parenthesis), and the name as the title with the session-keyword
and parenthetical patterns removed and the result trimmed, falling back to
the untouched title exactly when stripping collapses the name to empty (the
name is empty only for the empty title); the concrete scenario of the spec
holds. -/
theorem extractClientFromTitle_spec :
    extractClientFromTitle "Therapy Session - John Doe (C001)" =
      ⟨"John Doe", "C001"⟩ ∧
    (∀ title, '(' ∉ title.data → (extractClientFromTitle title).id = "") ∧
    (∀ title, (extractClientFromTitle title).name = "" ↔ title = "") := by
  refine ⟨by decide, ?_, ?_⟩
  · intro title h
    simp only [extractClientFromTitle]
    rw [findParenId_none title.data h]
  · intro title
    simp only [extractClientFromTitle]
    by_cases hc : (⟨trimChars (replaceAllWith matchPat3At
        (replaceAllWith matchPat2At
          (replaceAllWith matchPat1At title.data)))⟩ : String) = ""
    · rw [if_pos hc]
    · rw [if_neg hc]
      constructor
      · intro h
        exact absurd h hc
      · intro h
        subst h
        exact absurd rfl hc

/-- C8 witness. -/
theorem extractClientFromTitle_spec_example :
    (extractClientFromTitle "Hello World").id = "" :=
  extractClientFromTitle_spec.2.1 "Hello World" (by decide)
